import Mathlib

/-!
Verification of the "Fourline" connect-four engine from `src/bin/fourline.rs`.

The board is a 7-column × 6-row grid (`NUM_COLUMNS = 7`, `NUM_ROWS = 6` in the
source); cells are stored in a flat array indexed by `row * 7 + col`, with the
bottom-left cell at index 0.  We embed the array as a total function
`Nat → Cell`; the program only ever reads or writes indices below 42.
All numeric constants (7, 6) are inlined, matching the source's constants.
-/

set_option maxHeartbeats 1000000

/-- The two players, `enum PlayerColor { Blue, Red }` from the source. -/
inductive PlayerColor
  | Blue
  | Red
deriving DecidableEq, Repr

instance : Fintype PlayerColor where
  elems := {PlayerColor.Blue, PlayerColor.Red}
  complete := by intro x; cases x <;> simp

/-- `type Cell = Option<PlayerColor>` from the source. -/
abbrev Cell := Option PlayerColor

/-- The Bevy game states, `enum GameState` from the source. -/
inductive GameState
  | HumanToMove
  | ComputerToMove
  | GameWon
  | GameDrawn
deriving DecidableEq, Repr

/-- `struct GameData` from the source.  `cells` is the flat cell array
(bottom-left cell at index 0, index `row * NUM_COLUMNS + col`); the
`texture_atlas` handle is a rendering-only field and is not modelled. -/
structure GameData where
  cells : Nat → Cell
  next_player_color : PlayerColor

/-- `GameData::new`: an empty board with Blue to move first. -/
def GameData.new : GameData :=
  { cells := fun _ => none, next_player_color := PlayerColor.Blue }

/-- The ascending scan `for row in 0..NUM_ROWS` inside `lowest_vacant_row`,
written with an explicit fuel argument (the number of rows still to examine).
`lvrAux gd col row fuel` inspects rows `row, row+1, ..., row+fuel-1` in order
and returns the first one whose cell in `col` is empty. -/
def lvrAux (gd : GameData) (col : Nat) : Nat → Nat → Option Nat
  | _, 0 => none
  | row, fuel + 1 =>
    if gd.cells (row * 7 + col) = none then some row
    else lvrAux gd col (row + 1) fuel

/-- `GameData::lowest_vacant_row`: index of the row nearest the bottom with a
vacant cell in `col`, or `none` if the column is full. -/
def GameData.lowest_vacant_row (gd : GameData) (col : Nat) : Option Nat :=
  lvrAux gd col 0 6

/-- `GameData::make_move`: place a piece for the next player in the lowest
empty cell of `col`.  The mutation `self.cells[NUM_COLUMNS * vacant_row + col]
= Some(self.next_player_color)` becomes a pointwise function update; the Rust
`Result<usize, ()>` becomes `Except Unit Nat`. -/
def make_move (gd : GameData) (col : Nat) : GameData × Except Unit Nat :=
  match gd.lowest_vacant_row col with
  | some vacant_row =>
    ({ gd with
        cells := fun i =>
          if i = 7 * vacant_row + col then some gd.next_player_color
          else gd.cells i },
     Except.ok vacant_row)
  | none => (gd, Except.error ())

/-- `GameData::is_board_full`: true when every cell of the top row
(`(NUM_ROWS - 1) * NUM_COLUMNS + col` for each column) is occupied. -/
def GameData.is_board_full (gd : GameData) : Bool :=
  (List.range 7).all fun col => !(decide (gd.cells ((6 - 1) * 7 + col) = none))

/-- The inclusive offset range `-3..=3` scanned by `is_winning_move`. -/
def offsets : List Int := [-3, -2, -1, 0, 1, 2, 3]

/-- The four `(column displacement, row displacement)` direction pairs of
`is_winning_move`: vertical, diagonal, horizontal, anti-diagonal. -/
def dirs : List (Int × Int) := [(0, 1), (1, 1), (1, 0), (1, -1)]

/-- The in-grid test of `is_winning_move`'s inner loop: the source skips the
offset (`continue`) when `(c < 0) || (c >= 7) || (r < 0) || (r >= 6)` where
`c = col + i * c_disp` and `r = row + i * r_disp`. -/
def inRangeB (col row : Nat) (cd rd i : Int) : Bool :=
  !(decide ((col : Int) + i * cd < 0) || decide (7 ≤ (col : Int) + i * cd) ||
    decide ((row : Int) + i * rd < 0) || decide (6 ≤ (row : Int) + i * rd))

/-- The cell comparison of `is_winning_move`'s inner loop:
`self.cells[(r * NUM_COLUMNS as i8 + c) as usize] == played_piece`.  The `i8`
arithmetic never overflows for in-range inputs, so it is modelled on `Int`;
the `as usize` cast becomes `Int.toNat` (the looked-up index is only used when
the in-grid test has passed, where it is non-negative). -/
def matchB (gd : GameData) (played : Cell) (col row : Nat) (cd rd i : Int) : Bool :=
  decide (gd.cells ((((row : Int) + i * rd) * 7 + ((col : Int) + i * cd)).toNat) = played)

/-- One iteration of `is_winning_move`'s inner loop, as a fold step.  The
accumulator is `(line_length, found)`: `found` encodes the source's early
`return true` (once set, later iterations have no effect); otherwise an
out-of-grid offset is skipped, a matching cell increments `line_length`
(setting `found` when it reaches 4), and any other cell resets it to 0. -/
def gStep (inR m : Int → Bool) (acc : Nat × Bool) (i : Int) : Nat × Bool :=
  if acc.2 then acc
  else if inR i = false then acc
  else if m i then (acc.1 + 1, decide (acc.1 + 1 = 4))
  else (0, false)

/-- The scan of one direction in `is_winning_move`: fold the inner loop over
the offsets `-3..=3` starting from `line_length = 0`. -/
def dirScan (gd : GameData) (played : Cell) (col row : Nat) (cd rd : Int) : Bool :=
  (offsets.foldl (gStep (inRangeB col row cd rd) (matchB gd played col row cd rd))
    (0, false)).2

/-- `GameData::is_winning_move`: true when the piece at `(col, row)` is part
of a line of 4 pieces of the same player.  Returns `false` immediately when
the cell is empty; otherwise scans the four directions (the source's early
`return true` from inside a direction becomes `List.any`). -/
def GameData.is_winning_move (gd : GameData) (col row : Nat) : Bool :=
  let played := gd.cells (row * 7 + col)
  if played = none then false
  else dirs.any fun d => dirScan gd played col row d.1 d.2

/-- The shared post-placement logic of the `main_loop` and `computer_move`
systems (source lines 259–301 and 371–412, which are textually identical):
attempt the move; on failure nothing changes; on success at row `r`, if the
move wins and the current state is not already `GameWon`, set `GameWon` and
return; else if the board is full, set `GameDrawn` and return; else flip
`next_player_color` and hand the turn to the other player's system. -/
def turn_step (gd : GameData) (st : GameState) (col : Nat) : GameData × GameState :=
  match make_move gd col with
  | (gd1, Except.error _) => (gd1, st)
  | (gd1, Except.ok r) =>
    if gd1.is_winning_move col r ∧ st ≠ GameState.GameWon then
      (gd1, GameState.GameWon)
    else if gd1.is_board_full then
      (gd1, GameState.GameDrawn)
    else if gd1.next_player_color = PlayerColor.Blue then
      ({ gd1 with next_player_color := PlayerColor.Red }, GameState.ComputerToMove)
    else
      ({ gd1 with next_player_color := PlayerColor.Blue }, GameState.HumanToMove)

/-- One tick of the app as configured in `main`: `main_loop` runs only in
`SystemSet::on_update(GameState::HumanToMove)` and `computer_move` only in
`on_update(GameState::ComputerToMove)`, so in the two terminal states no
game system runs and neither the board nor the state changes. -/
def app_step (gd : GameData) (st : GameState) (col : Nat) : GameData × GameState :=
  match st with
  | GameState.HumanToMove => turn_step gd st col
  | GameState.ComputerToMove => turn_step gd st col
  | GameState.GameWon => (gd, st)
  | GameState.GameDrawn => (gd, st)

/-- Run a sequence of app ticks, feeding each tick one requested column. -/
def app_run (gd : GameData) (st : GameState) : List Nat → GameData × GameState
  | [] => (gd, st)
  | c :: cs => app_run (app_step gd st c).1 (app_step gd st c).2 cs

/-- One `make_move` call in a sequence: the caller may set
`next_player_color` arbitrarily before the call (as the turn logic does). -/
def moveSeqStep (gd : GameData) (mv : Nat × PlayerColor) : GameData :=
  (make_move { gd with next_player_color := mv.2 } mv.1).1

/-- The board after a sequence of `make_move` calls starting from `gd`. -/
def applyMoves (gd : GameData) (ms : List (Nat × PlayerColor)) : GameData :=
  ms.foldl moveSeqStep gd

/-- The gravity invariant: within each column the occupied cells form a
contiguous run starting at row 0 (every cell below an occupied cell is
occupied). -/
def gravityInv (gd : GameData) : Prop :=
  ∀ col, col < 7 → ∀ r s : Nat, r ≤ s → s < 6 →
    gd.cells (s * 7 + col) ≠ none → gd.cells (r * 7 + col) ≠ none

/-- A board holding exactly one piece `p`, at flat index `i`. -/
def singlePieceBoard (i : Nat) (p : PlayerColor) : GameData :=
  { cells := fun j => if j = i then some p else none, next_player_color := p }

/-!
Analysis machinery for the `is_winning_move` scan.  A direction's scan is
reduced to: mask the 7 match flags by the 7 in-grid flags (`maskL`), then look
for a run of four consecutive `true`s (`hasRun4`).  Because the in-grid flags
of a straight line always form a contiguous block (`isInterval`), that run is
equivalent to a window of four in-grid matching offsets (`refWindowN`).
-/

/-- Keep the entries of the second list whose corresponding flag in the first
list is set. -/
def maskL : List Bool → List Bool → List Bool
  | r :: rs, b :: bs => if r then b :: maskL rs bs else maskL rs bs
  | _, _ => []

/-- Run-counting scan over a list of match flags, same accumulator discipline
as `gStep` but with the in-grid skipping already applied. -/
def runScan : List Bool → Nat × Bool → Bool
  | [], acc => acc.2
  | b :: bs, acc =>
    runScan bs
      (if acc.2 then acc
       else if b then (acc.1 + 1, decide (acc.1 + 1 = 4))
       else (0, false))

/-- `leadK k bs` is true when `bs` has at least `k` elements and its first
`k` elements are all `true`. -/
def leadK : Nat → List Bool → Bool
  | 0, _ => true
  | _ + 1, [] => false
  | k + 1, b :: bs => b && leadK k bs

/-- Does the list contain four consecutive `true`s? -/
def hasRun4 : List Bool → Bool
  | [] => false
  | b :: bs => (b && leadK 3 bs) || hasRun4 bs

/-- All elements false. -/
def allFalseL : List Bool → Bool
  | [] => true
  | b :: bs => !b && allFalseL bs

/-- After a block of `true`s: more `true`s, then only `false`s. -/
def afterTrues : List Bool → Bool
  | [] => true
  | true :: bs => afterTrues bs
  | false :: bs => allFalseL bs

/-- The `true` entries form one contiguous block (possibly empty). -/
def isInterval : List Bool → Bool
  | [] => true
  | false :: bs => isInterval bs
  | true :: bs => afterTrues bs

/-- Window form of the winning condition on two 7-element flag lists: some
window of four consecutive positions has all in-grid flags and all match
flags set. -/
def refWindowN (L M : List Bool) : Bool :=
  ([0, 1, 2, 3] : List Nat).any fun s =>
    ([0, 1, 2, 3] : List Nat).all fun j =>
      L.getD (s + j) false && M.getD (s + j) false

/-- Reference winning condition in one direction `(cd, rd)`, following the
spec: there is a line of four contiguous cells along the direction, all
in-grid and all holding the piece `p`, that contains the played cell
(offset 0 lies between `s` and `s + 3` since `-3 ≤ s ≤ 0`). -/
def dirLine (gd : GameData) (p : PlayerColor) (col row : Nat) (cd rd : Int) : Prop :=
  ∃ s : Int, -3 ≤ s ∧ s ≤ 0 ∧ ∀ j : Int, 0 ≤ j → j ≤ 3 →
    (0 ≤ (col : Int) + (s + j) * cd ∧ (col : Int) + (s + j) * cd < 7 ∧
     0 ≤ (row : Int) + (s + j) * rd ∧ (row : Int) + (s + j) * rd < 6) ∧
    gd.cells ((((row : Int) + (s + j) * rd) * 7 + ((col : Int) + (s + j) * cd)).toNat) = some p

/-- Reference definition of a winning cell, following the spec's words: the
played cell is occupied and lies on a line of four contiguous cells of the
same piece along one of the four directions. -/
def lineOfFour (gd : GameData) (col row : Nat) : Prop :=
  ∃ p, gd.cells (row * 7 + col) = some p ∧
    ∃ d ∈ dirs, dirLine gd p col row d.1 d.2

/-- Modelled from the spec: the essential tail of
`convert_mouse_position_to_column_id` (source lines 353–359).  The upstream
conversion from the window cursor position and camera transform to a world
x-coordinate is `f32` arithmetic on external engine data and is abstracted
into the rational input `pos_world_x`; the distance/column computation and
the guard are translated directly.  The `as usize` cast truncates and
saturates at zero, which `Int.toNat ∘ Rat.floor` matches for the
positive-guarded branch. -/
def convert_mouse_position_to_column_id (pos_world_x : Rat) : Except Unit Nat :=
  let pos_distance_x : Rat := pos_world_x + (7 / 2) * 80
  let pos_col : Nat := (pos_distance_x / 80).floor.toNat
  if 0 < pos_distance_x ∧ pos_col < 7 then Except.ok pos_col else Except.error ()

/-- Modelled from the spec: `computer_move` draws its column as
`fastrand::u8(0..7)` (an external crate), "chosen uniformly at random among
[0,7)".  The generator output is abstracted as an arbitrary natural number
reduced into the range. -/
def computer_selected_column (rand : Nat) : Nat := rand % 7

/-- A board one move away from being simultaneously won and full: every cell
is occupied except the top of column 0, and rows 2–4 of column 0 (flat
indices 14, 21, 28) hold Blue pieces, so Blue completing column 0 finishes a
vertical four and fills the top row. -/
def almostDoneBoard : GameData :=
  { cells := fun i =>
      if i = 35 then none
      else if i = 14 ∨ i = 21 ∨ i = 28 then some PlayerColor.Blue
      else some PlayerColor.Red,
    next_player_color := PlayerColor.Blue }

/-- A board whose column 0 is completely full (every index divisible by 7). -/
def fullColumnBoard : GameData :=
  { cells := fun i => if i % 7 = 0 then some PlayerColor.Blue else none,
    next_player_color := PlayerColor.Blue }

theorem foldl_gStep_eq_runScan (inR m : Int → Bool) :
    ∀ (l : List Int) (acc : Nat × Bool),
      (l.foldl (gStep inR m) acc).2 = runScan (maskL (l.map inR) (l.map m)) acc := by
  intro l
  induction l with
  | nil => intro acc; rfl
  | cons i t ih =>
    intro acc
    by_cases hR : inR i = true
    · have h1 : maskL ((i :: t).map inR) ((i :: t).map m)
          = m i :: maskL (t.map inR) (t.map m) := by
        simp [maskL, hR]
      have h2 : gStep inR m acc i
          = (if acc.2 then acc
             else if m i then (acc.1 + 1, decide (acc.1 + 1 = 4))
             else (0, false)) := by
        by_cases hA : acc.2 <;> simp [gStep, hR, hA]
      rw [List.foldl_cons, h1]
      rw [show runScan (m i :: maskL (t.map inR) (t.map m)) acc
            = runScan (maskL (t.map inR) (t.map m))
                (if acc.2 then acc
                 else if m i then (acc.1 + 1, decide (acc.1 + 1 = 4))
                 else (0, false)) from rfl]
      rw [h2.symm] at *
      rw [h2]
      exact ih _
    · have hR' : inR i = false := by simpa using hR
      have h1 : maskL ((i :: t).map inR) ((i :: t).map m)
          = maskL (t.map inR) (t.map m) := by
        simp [maskL, hR']
      have h2 : gStep inR m acc i = acc := by
        by_cases hA : acc.2 <;> simp [gStep, hR', hA]
      rw [List.foldl_cons, h1, h2]
      exact ih acc

theorem runScan_found : ∀ (bs : List Bool) (n : Nat), runScan bs (n, true) = true := by
  intro bs
  induction bs with
  | nil => intro n; rfl
  | cons b t ih => intro n; simpa [runScan] using ih n

theorem leadK_mono : ∀ (bs : List Bool) (k k' : Nat), k' ≤ k →
    leadK k bs = true → leadK k' bs = true := by
  intro bs
  induction bs with
  | nil =>
    intro k k' hle h
    cases k' with
    | zero => rfl
    | succ k'' => cases k with
      | zero => omega
      | succ k2 => simp [leadK] at h
  | cons b t ih =>
    intro k k' hle h
    cases k' with
    | zero => rfl
    | succ k'' =>
      cases k with
      | zero => omega
      | succ k2 =>
        simp [leadK] at h ⊢
        exact ⟨h.1, ih k2 k'' (by omega) h.2⟩

theorem hasRun4_of_leadK4 : ∀ bs : List Bool, leadK 4 bs = true → hasRun4 bs = true := by
  intro bs h
  cases bs with
  | nil => simp [leadK] at h
  | cons b t =>
    simp [leadK] at h
    simp [hasRun4, h.1, h.2]

theorem runScan_closed : ∀ (bs : List Bool) (n : Nat), n < 4 →
    runScan bs (n, false) = (leadK (4 - n) bs || hasRun4 bs) := by
  intro bs
  induction bs with
  | nil =>
    intro n hn
    have h4 : 4 - n = (3 - n) + 1 := by omega
    simp [runScan, hasRun4, h4, leadK]
  | cons b t ih =>
    intro n hn
    cases b with
    | false =>
      have h4 : 4 - n = (3 - n) + 1 := by omega
      rw [show runScan (false :: t) (n, false) = runScan t (0, false) from rfl]
      rw [ih 0 (by omega)]
      rw [show hasRun4 (false :: t) = hasRun4 t from by simp [hasRun4]]
      rw [show leadK (4 - n) (false :: t) = false from by rw [h4]; simp [leadK]]
      rw [show (4 : Nat) - 0 = 4 from rfl]
      simp only [Bool.false_or]
      cases h : leadK 4 t with
      | false => simp
      | true => simp [hasRun4_of_leadK4 t h]
    | true =>
      by_cases h4 : n + 1 = 4
      · rw [show runScan (true :: t) (n, false)
            = runScan t (n + 1, decide (n + 1 = 4)) from rfl]
        rw [show (decide (n + 1 = 4)) = true from by simp [h4]]
        rw [runScan_found]
        have h1 : 4 - n = 1 := by omega
        rw [show leadK (4 - n) (true :: t) = (true && leadK (4 - n - 1) t) from by
          rw [h1]; simp [leadK]]
        simp [h1, leadK]
      · rw [show runScan (true :: t) (n, false)
            = runScan t (n + 1, decide (n + 1 = 4)) from rfl]
        rw [show (decide (n + 1 = 4)) = false from by simp [h4]]
        rw [ih (n + 1) (by omega)]
        have h1 : 4 - n = (4 - (n + 1)) + 1 := by omega
        rw [show leadK (4 - n) (true :: t) = leadK (4 - (n + 1)) t from by
          rw [h1]; simp [leadK]]
        rw [show hasRun4 (true :: t) = ((leadK 3 t) || hasRun4 t) from by simp [hasRun4]]
        have h3 : leadK 3 t = true → leadK (4 - (n + 1)) t = true :=
          leadK_mono t 3 (4 - (n + 1)) (by omega)
        have h5 : (4 : Nat) - (n + 1) = 3 - n := by omega
        rw [h5] at h3
        cases hl : leadK 3 t with
        | false => simp
        | true => simp [h3 hl]

theorem runScan_eq_hasRun4 (bs : List Bool) : runScan bs (0, false) = hasRun4 bs := by
  rw [runScan_closed bs 0 (by omega)]
  rw [show (4 : Nat) - 0 = 4 from rfl]
  cases h : leadK 4 bs with
  | false => simp
  | true => simp [hasRun4_of_leadK4 bs h]

theorem getD_offsets_map (f : Int → Bool) (k : Nat) (hk : k < 7) :
    (offsets.map f).getD k false = f ((k : Int) - 3) := by
  interval_cases k <;> rfl

theorem refWindowN_map_iff (f g : Int → Bool) :
    refWindowN (offsets.map f) (offsets.map g) = true ↔
    ∃ s : Int, -3 ≤ s ∧ s ≤ 0 ∧ ∀ j : Int, 0 ≤ j → j ≤ 3 →
      f (s + j) = true ∧ g (s + j) = true := by
  unfold refWindowN
  rw [List.any_eq_true]
  constructor
  · rintro ⟨s, hs, hall⟩
    rw [List.all_eq_true] at hall
    have hs3 : s ≤ 3 := by
      simp only [List.mem_cons, List.not_mem_nil, or_false] at hs
      omega
    refine ⟨(s : Int) - 3, by omega, by omega, ?_⟩
    intro j hj0 hj3
    have hjm : j.toNat ∈ ([0, 1, 2, 3] : List Nat) := by
      simp only [List.mem_cons, List.not_mem_nil, or_false]
      omega
    have h := hall j.toNat hjm
    rw [Bool.and_eq_true] at h
    rw [getD_offsets_map f (s + j.toNat) (by omega)] at h
    rw [getD_offsets_map g (s + j.toNat) (by omega)] at h
    have hidx : ((s + j.toNat : Nat) : Int) - 3 = (s : Int) - 3 + j := by omega
    rw [hidx] at h
    exact h
  · rintro ⟨s, hs3, hs0, hall⟩
    refine ⟨(s + 3).toNat, ?_, ?_⟩
    · simp only [List.mem_cons, List.not_mem_nil, or_false]
      omega
    · rw [List.all_eq_true]
      intro j hj
      have hj3 : j ≤ 3 := by
        simp only [List.mem_cons, List.not_mem_nil, or_false] at hj
        omega
      have h := hall (j : Int) (by omega) (by omega)
      rw [Bool.and_eq_true]
      rw [getD_offsets_map f ((s + 3).toNat + j) (by omega)]
      rw [getD_offsets_map g ((s + 3).toNat + j) (by omega)]
      have hidx : (((s + 3).toNat + j : Nat) : Int) - 3 = s + (j : Int) := by omega
      rw [hidx]
      exact h

theorem inRangeB_true_iff (col row : Nat) (cd rd i : Int) :
    inRangeB col row cd rd i = true ↔
    (0 ≤ (col : Int) + i * cd ∧ (col : Int) + i * cd < 7 ∧
     0 ≤ (row : Int) + i * rd ∧ (row : Int) + i * rd < 6) := by
  unfold inRangeB
  simp only [Bool.not_eq_true', Bool.or_eq_false_iff, decide_eq_false_iff_not, not_lt]
  constructor
  · rintro ⟨⟨⟨h1, h2⟩, h3⟩, h4⟩
    exact ⟨h1, by omega, h3, by omega⟩
  · rintro ⟨h1, h2, h3, h4⟩
    exact ⟨⟨⟨h1, by omega⟩, h3⟩, by omega⟩

theorem matchB_true_iff (gd : GameData) (p : PlayerColor) (col row : Nat) (cd rd i : Int) :
    matchB gd (some p) col row cd rd i = true ↔
    gd.cells ((((row : Int) + i * rd) * 7 + ((col : Int) + i * cd)).toNat) = some p := by
  unfold matchB
  simp

set_option maxHeartbeats 4000000 in
theorem maskRun_eq_refWindow :
    ∀ r0 r1 r2 r3 r4 r5 r6 m0 m1 m2 m3 m4 m5 m6 : Bool,
      isInterval [r0, r1, r2, r3, r4, r5, r6] = true →
      hasRun4 (maskL [r0, r1, r2, r3, r4, r5, r6] [m0, m1, m2, m3, m4, m5, m6]) =
        refWindowN [r0, r1, r2, r3, r4, r5, r6] [m0, m1, m2, m3, m4, m5, m6] := by
  decide

theorem isInterval_dirs :
    ∀ (c : Fin 7) (r : Fin 6), ∀ d ∈ dirs,
      isInterval (offsets.map (inRangeB c.1 r.1 d.1 d.2)) = true := by
  decide

theorem map_offsets_expand (f : Int → Bool) :
    offsets.map f = [f (-3), f (-2), f (-1), f 0, f 1, f 2, f 3] := rfl

theorem dirScan_iff_dirLine (gd : GameData) (p : PlayerColor) (col row : Nat) (cd rd : Int)
    (hInt : isInterval (offsets.map (inRangeB col row cd rd)) = true) :
    dirScan gd (some p) col row cd rd = true ↔ dirLine gd p col row cd rd := by
  have h1 : dirScan gd (some p) col row cd rd
      = hasRun4 (maskL (offsets.map (inRangeB col row cd rd))
          (offsets.map (matchB gd (some p) col row cd rd))) := by
    unfold dirScan
    rw [foldl_gStep_eq_runScan, runScan_eq_hasRun4]
  rw [h1]
  rw [map_offsets_expand (inRangeB col row cd rd)] at hInt ⊢
  rw [map_offsets_expand (matchB gd (some p) col row cd rd)]
  rw [maskRun_eq_refWindow _ _ _ _ _ _ _ _ _ _ _ _ _ _ hInt]
  rw [← map_offsets_expand (inRangeB col row cd rd),
      ← map_offsets_expand (matchB gd (some p) col row cd rd)]
  rw [refWindowN_map_iff]
  unfold dirLine
  constructor
  · rintro ⟨s, hs3, hs0, hall⟩
    refine ⟨s, hs3, hs0, ?_⟩
    intro j hj0 hj3
    have h := hall j hj0 hj3
    exact ⟨(inRangeB_true_iff col row cd rd (s + j)).mp h.1,
           (matchB_true_iff gd p col row cd rd (s + j)).mp h.2⟩
  · rintro ⟨s, hs3, hs0, hall⟩
    refine ⟨s, hs3, hs0, ?_⟩
    intro j hj0 hj3
    have h := hall j hj0 hj3
    exact ⟨(inRangeB_true_iff col row cd rd (s + j)).mpr h.1,
           (matchB_true_iff gd p col row cd rd (s + j)).mpr h.2⟩

theorem fourline_is_winning_move_iff_lineOfFour
    (gd : GameData) (col row : Nat) (hc : col < 7) (hr : row < 6)
    (hocc : gd.cells (row * 7 + col) ≠ none) :
    gd.is_winning_move col row = true ↔ lineOfFour gd col row := by
  obtain ⟨p, hp⟩ : ∃ p, gd.cells (row * 7 + col) = some p := by
    cases h : gd.cells (row * 7 + col) with
    | none => exact absurd h hocc
    | some p => exact ⟨p, rfl⟩
  have hInt : ∀ d ∈ dirs, isInterval (offsets.map (inRangeB col row d.1 d.2)) = true :=
    fun d hd => isInterval_dirs ⟨col, hc⟩ ⟨row, hr⟩ d hd
  unfold GameData.is_winning_move
  rw [hp]
  rw [if_neg (by simp : ¬(some p = none))]
  rw [List.any_eq_true]
  unfold lineOfFour
  constructor
  · rintro ⟨d, hd, hscan⟩
    exact ⟨p, hp, d, hd, (dirScan_iff_dirLine gd p col row d.1 d.2 (hInt d hd)).mp hscan⟩
  · rintro ⟨q, hq, d, hd, hline⟩
    have hqp : q = p := by
      rw [hp] at hq
      exact (Option.some_inj.mp hq).symm
    subst hqp
    exact ⟨d, hd, (dirScan_iff_dirLine gd q col row d.1 d.2 (hInt d hd)).mpr hline⟩

theorem lvrAux_some (gd : GameData) (col : Nat) :
    ∀ (fuel row r : Nat), lvrAux gd col row fuel = some r →
      row ≤ r ∧ r < row + fuel ∧ gd.cells (r * 7 + col) = none ∧
      ∀ q, row ≤ q → q < r → gd.cells (q * 7 + col) ≠ none := by
  intro fuel
  induction fuel with
  | zero => intro row r h; simp [lvrAux] at h
  | succ f ih =>
    intro row r h
    unfold lvrAux at h
    by_cases hc : gd.cells (row * 7 + col) = none
    · rw [if_pos hc] at h
      have hr : r = row := (Option.some_inj.mp h).symm
      subst hr
      exact ⟨le_refl r, by omega, hc, fun q hq1 hq2 => by omega⟩
    · rw [if_neg hc] at h
      obtain ⟨h1, h2, h3, h4⟩ := ih (row + 1) r h
      refine ⟨by omega, by omega, h3, ?_⟩
      intro q hq1 hq2
      by_cases hq : q = row
      · subst hq; exact hc
      · exact h4 q (by omega) hq2

theorem lvrAux_none (gd : GameData) (col : Nat) :
    ∀ (fuel row : Nat), lvrAux gd col row fuel = none →
      ∀ q, row ≤ q → q < row + fuel → gd.cells (q * 7 + col) ≠ none := by
  intro fuel
  induction fuel with
  | zero => intro row _ q hq1 hq2; omega
  | succ f ih =>
    intro row h q hq1 hq2
    unfold lvrAux at h
    by_cases hc : gd.cells (row * 7 + col) = none
    · rw [if_pos hc] at h; exact absurd h (by simp)
    · rw [if_neg hc] at h
      by_cases hq : q = row
      · subst hq; exact hc
      · exact ih (row + 1) h q (by omega) (by omega)

theorem lvrAux_ne_none (gd : GameData) (col : Nat) :
    ∀ (fuel row q : Nat), row ≤ q → q < row + fuel →
      gd.cells (q * 7 + col) = none → lvrAux gd col row fuel ≠ none := by
  intro fuel
  induction fuel with
  | zero => intro row q hq1 hq2; omega
  | succ f ih =>
    intro row q hq1 hq2 hcell
    unfold lvrAux
    by_cases hc : gd.cells (row * 7 + col) = none
    · rw [if_pos hc]; simp
    · rw [if_neg hc]
      have hq : q ≠ row := fun h => hc (h ▸ hcell)
      exact ih (row + 1) q (by omega) (by omega) hcell

theorem lowest_vacant_row_some (gd : GameData) (col r : Nat)
    (h : gd.lowest_vacant_row col = some r) :
    r < 6 ∧ gd.cells (r * 7 + col) = none ∧
    ∀ q, q < r → gd.cells (q * 7 + col) ≠ none := by
  obtain ⟨h1, h2, h3, h4⟩ := lvrAux_some gd col 6 0 r h
  exact ⟨by omega, h3, fun q hq => h4 q (by omega) hq⟩

theorem make_move_err_board (gd : GameData) (col : Nat)
    (h : (make_move gd col).2 = Except.error ()) : (make_move gd col).1 = gd := by
  unfold make_move at *
  cases hl : gd.lowest_vacant_row col with
  | some r => rw [hl] at h; simp at h
  | none => rfl

theorem make_move_err_iff (gd : GameData) (col : Nat) :
    (make_move gd col).2 = Except.error () ↔ gd.lowest_vacant_row col = none := by
  unfold make_move
  cases hl : gd.lowest_vacant_row col with
  | some r => simp
  | none => simp

theorem make_move_ok_iff (gd : GameData) (col r : Nat) :
    (make_move gd col).2 = Except.ok r ↔ gd.lowest_vacant_row col = some r := by
  unfold make_move
  cases hl : gd.lowest_vacant_row col with
  | some q => simp
  | none => simp

theorem make_move_ok_board (gd : GameData) (col r : Nat)
    (h : gd.lowest_vacant_row col = some r) :
    (make_move gd col).1.cells = fun i =>
      if i = 7 * r + col then some gd.next_player_color else gd.cells i := by
  unfold make_move
  rw [h]

/-- Claim C5: for every board and column `col < 7`, `make_move` fails with the
column-full error iff all 6 rows of the column are occupied, and on failure
the board is left completely unchanged. -/
theorem fourline_make_move_full_column (gd : GameData) (col : Nat) (hc : col < 7) :
    ((make_move gd col).2 = Except.error () ↔
      ∀ r, r < 6 → gd.cells (r * 7 + col) ≠ none) ∧
    ((make_move gd col).2 = Except.error () → (make_move gd col).1 = gd) := by
  constructor
  · rw [make_move_err_iff]
    constructor
    · intro h r hr
      exact lvrAux_none gd col 6 0 h r (by omega) (by omega)
    · intro h
      cases hl : gd.lowest_vacant_row col with
      | none => rfl
      | some r =>
        obtain ⟨hr6, hempty, _⟩ := lowest_vacant_row_some gd col r hl
        exact absurd hempty (h r hr6)
  · exact make_move_err_board gd col

/-- Claim C6: on a board with at least one empty cell in column `col < 7`,
`make_move` succeeds, returns the lowest empty row of that column, sets
exactly that cell to the current player's piece, and changes no other cell. -/
theorem fourline_make_move_success (gd : GameData) (col : Nat) (hc : col < 7)
    (hvac : ∃ r, r < 6 ∧ gd.cells (r * 7 + col) = none) :
    ∃ r, (make_move gd col).2 = Except.ok r ∧ r < 6 ∧
      gd.cells (r * 7 + col) = none ∧
      (∀ q, q < r → gd.cells (q * 7 + col) ≠ none) ∧
      (make_move gd col).1.cells (7 * r + col) = some gd.next_player_color ∧
      (∀ i, i ≠ 7 * r + col → (make_move gd col).1.cells i = gd.cells i) := by
  obtain ⟨v, hv6, hvcell⟩ := hvac
  cases hl : gd.lowest_vacant_row col with
  | none =>
    exact absurd hl (lvrAux_ne_none gd col 6 0 v (by omega) (by omega) hvcell)
  | some r =>
    obtain ⟨hr6, hempty, hbelow⟩ := lowest_vacant_row_some gd col r hl
    refine ⟨r, (make_move_ok_iff gd col r).mpr hl, hr6, hempty, hbelow, ?_, ?_⟩
    · rw [make_move_ok_board gd col r hl]
      simp
    · intro i hi
      rw [make_move_ok_board gd col r hl]
      simp [hi]

/-- Claim C7: `is_board_full` is true iff every cell of the top row (row 5)
is occupied, independent of lower rows; and on any board satisfying the
gravity invariant, a full top row implies all 42 cells are occupied. -/
theorem fourline_is_board_full_iff (gd : GameData) :
    (gd.is_board_full = true ↔ ∀ col, col < 7 → gd.cells (5 * 7 + col) ≠ none) ∧
    (gravityInv gd → gd.is_board_full = true →
      ∀ col, col < 7 → ∀ row, row < 6 → gd.cells (row * 7 + col) ≠ none) := by
  have hiff : gd.is_board_full = true ↔
      ∀ col, col < 7 → gd.cells (5 * 7 + col) ≠ none := by
    unfold GameData.is_board_full
    rw [List.all_eq_true]
    constructor
    · intro h col hcol
      have := h col (List.mem_range.mpr hcol)
      simpa using this
    · intro h col hcol
      have := h col (List.mem_range.mp hcol)
      simpa using this
  refine ⟨hiff, ?_⟩
  intro hgrav hfull col hcol row hrow
  have htop : gd.cells (5 * 7 + col) ≠ none := (hiff.mp hfull) col hcol
  exact hgrav col hcol row 5 (by omega) (by omega) htop

theorem make_move_cells_mono (gd : GameData) (col i : Nat)
    (h : gd.cells i ≠ none) : (make_move gd col).1.cells i ≠ none := by
  cases hl : gd.lowest_vacant_row col with
  | none =>
    have : (make_move gd col).1 = gd := by unfold make_move; rw [hl]
    rw [this]; exact h
  | some r =>
    rw [make_move_ok_board gd col r hl]
    by_cases hi : i = 7 * r + col
    · simp [hi]
    · simpa [hi] using h

theorem make_move_gravity (gd : GameData) (col : Nat) (hc : col < 7)
    (h : gravityInv gd) : gravityInv (make_move gd col).1 := by
  cases hl : gd.lowest_vacant_row col with
  | none =>
    have heq : (make_move gd col).1 = gd := by unfold make_move; rw [hl]
    rw [heq]; exact h
  | some vr =>
    obtain ⟨hvr6, hempty, hbelow⟩ := lowest_vacant_row_some gd col vr hl
    intro col' hcol' r s hrs hs6 hocc
    rw [make_move_ok_board gd col vr hl] at hocc ⊢
    have hocc2 : (if s * 7 + col' = 7 * vr + col then some gd.next_player_color
        else gd.cells (s * 7 + col')) ≠ none := hocc
    show (if r * 7 + col' = 7 * vr + col then some gd.next_player_color
        else gd.cells (r * 7 + col')) ≠ none
    by_cases e1 : r * 7 + col' = 7 * vr + col
    · simp [e1]
    · rw [if_neg e1]
      by_cases e2 : s * 7 + col' = 7 * vr + col
      · have hrvr : r < vr := by omega
        have := hbelow r hrvr
        rw [show r * 7 + col' = r * 7 + col from by omega]
        exact this
      · rw [if_neg e2] at hocc2
        exact h col' hcol' r s hrs hs6 hocc2

theorem applyMoves_gravity :
    ∀ (ms : List (Nat × PlayerColor)) (gd : GameData),
      gravityInv gd → (∀ m ∈ ms, m.1 < 7) → gravityInv (applyMoves gd ms) := by
  intro ms
  induction ms with
  | nil => intro gd h _; exact h
  | cons m t ih =>
    intro gd h hall
    have hm : m.1 < 7 := hall m (by simp)
    have hstep : gravityInv (moveSeqStep gd m) :=
      make_move_gravity { gd with next_player_color := m.2 } m.1 hm
        (fun col' hc r s hrs hs hocc => h col' hc r s hrs hs hocc)
    exact ih (moveSeqStep gd m) hstep (fun x hx => hall x (by simp [hx]))

theorem applyMoves_cells_mono :
    ∀ (ms : List (Nat × PlayerColor)) (gd : GameData) (i : Nat),
      gd.cells i ≠ none → (applyMoves gd ms).cells i ≠ none := by
  intro ms
  induction ms with
  | nil => intro gd i h; exact h
  | cons m t ih =>
    intro gd i h
    exact ih (moveSeqStep gd m) i
      (make_move_cells_mono { gd with next_player_color := m.2 } m.1 i h)

/-- Claim C2: every board reachable from the empty board by a sequence of
`make_move` calls (with the players set arbitrarily between calls, and each
column within `make_move`'s asserted range) satisfies the gravity invariant,
and extending the sequence never turns an occupied cell empty again. -/
theorem fourline_reachable_gravity (ms : List (Nat × PlayerColor))
    (h : ∀ m ∈ ms, m.1 < 7) :
    gravityInv (applyMoves GameData.new ms) ∧
    ∀ (more : List (Nat × PlayerColor)) (i : Nat),
      (applyMoves GameData.new ms).cells i ≠ none →
      (applyMoves GameData.new (ms ++ more)).cells i ≠ none := by
  constructor
  · exact applyMoves_gravity ms GameData.new
      (fun col hc r s hrs hs hocc => absurd rfl hocc) h
  · intro more i hocc
    unfold applyMoves
    rw [List.foldl_append]
    exact applyMoves_cells_mono more (applyMoves GameData.new ms) i hocc

/-- Claim C3: when a single accepted placement both completes a line of four
and fills the board, the controller moves to `GameWon` for the piece just
placed — the win check runs first and takes priority over the board-full
check, so the game is not recorded as drawn. -/
theorem fourline_win_priority_over_draw (gd : GameData) (st : GameState) (col r : Nat)
    (hst : st = GameState.HumanToMove ∨ st = GameState.ComputerToMove)
    (hok : (make_move gd col).2 = Except.ok r)
    (hwin : (make_move gd col).1.is_winning_move col r = true)
    (hfull : (make_move gd col).1.is_board_full = true) :
    (turn_step gd st col).2 = GameState.GameWon ∧
    (turn_step gd st col).1.cells (7 * r + col) = some gd.next_player_color := by
  have hne : st ≠ GameState.GameWon := by
    rcases hst with rfl | rfl <;> intro hcon <;> cases hcon
  have hl : gd.lowest_vacant_row col = some r := (make_move_ok_iff gd col r).mp hok
  have hpair : make_move gd col = ((make_move gd col).1, Except.ok r) := by
    rw [← hok]
  have hstep : turn_step gd st col = ((make_move gd col).1, GameState.GameWon) := by
    unfold turn_step
    rw [hpair]
    simp only [hwin, hne, ne_eq, not_false_iff, and_self, if_true]
  rw [hstep]
  refine ⟨rfl, ?_⟩
  show (make_move gd col).1.cells (7 * r + col) = some gd.next_player_color
  rw [make_move_ok_board gd col r hl]
  simp

/-- Claim C4: once the state machine is in a terminal state (`GameWon` or
`GameDrawn`), no sequence of further app ticks changes the game state or the
board. -/
theorem fourline_terminal_absorbing (gd : GameData) (st : GameState)
    (hterm : st = GameState.GameWon ∨ st = GameState.GameDrawn) :
    ∀ cols : List Nat, app_run gd st cols = (gd, st) := by
  intro cols
  induction cols with
  | nil => rfl
  | cons c t ih =>
    have hstep : app_step gd st c = (gd, st) := by
      rcases hterm with rfl | rfl <;> rfl
    show app_run (app_step gd st c).1 (app_step gd st c).2 t = (gd, st)
    rw [hstep]
    exact ih

/-- Claim C8: when the move attempt fails because the chosen column is full,
the whole controller step is a no-op: board unchanged, state (and therefore
whose turn it is) unchanged. -/
theorem fourline_full_column_noop (gd : GameData) (st : GameState) (col : Nat)
    (herr : (make_move gd col).2 = Except.error ()) :
    turn_step gd st col = (gd, st) := by
  have hboard : (make_move gd col).1 = gd := make_move_err_board gd col herr
  have hpair : make_move gd col = (gd, Except.error ()) := by
    rw [show make_move gd col = ((make_move gd col).1, (make_move gd col).2) from rfl,
      hboard, herr]
  unfold turn_step
  rw [hpair]

/-- Claim C9: `is_winning_move` is false at every in-range cell of the empty
board, and false at the cell of the single piece of any one-piece board
(which has no aligned same-piece neighbours at all). -/
theorem fourline_no_win_sparse :
    (∀ col, col < 7 → ∀ row, row < 6 → GameData.new.is_winning_move col row = false) ∧
    (∀ col, col < 7 → ∀ row, row < 6 → ∀ p : PlayerColor,
      (singlePieceBoard (row * 7 + col) p).is_winning_move col row = false) := by
  decide

/-- Claim C10: the index assertions never fire: the computer's random column
choice is below 7, the pointer-to-column conversion only returns columns
below 7, and a successful `make_move` always returns a row below 6 (so
`is_winning_move`, called only on such pairs, sees `col < 7` and `row < 6`). -/
theorem fourline_asserts_hold :
    (∀ rand : Nat, computer_selected_column rand < 7) ∧
    (∀ (x : Rat) (c : Nat), convert_mouse_position_to_column_id x = Except.ok c → c < 7) ∧
    (∀ (gd : GameData) (col r : Nat), (make_move gd col).2 = Except.ok r → r < 6) := by
  refine ⟨?_, ?_, ?_⟩
  · intro rand
    exact Nat.mod_lt rand (by omega)
  · intro x c h
    unfold convert_mouse_position_to_column_id at h
    by_cases hg : 0 < x + 7 / 2 * 80 ∧ ((x + 7 / 2 * 80) / 80).floor.toNat < 7
    · rw [if_pos hg] at h
      have : ((x + 7 / 2 * 80) / 80).floor.toNat = c := Except.ok.inj h
      omega
    · rw [if_neg hg] at h
      cases h
  · intro gd col r h
    have hl : gd.lowest_vacant_row col = some r := (make_move_ok_iff gd col r).mp h
    exact (lowest_vacant_row_some gd col r hl).1

theorem fourline_is_winning_move_iff_lineOfFour_witness :
    (singlePieceBoard 0 PlayerColor.Blue).is_winning_move 0 0 = true ↔
      lineOfFour (singlePieceBoard 0 PlayerColor.Blue) 0 0 :=
  fourline_is_winning_move_iff_lineOfFour (singlePieceBoard 0 PlayerColor.Blue) 0 0
    (by decide) (by decide) (by decide)

theorem fourline_reachable_gravity_witness :
    gravityInv (applyMoves GameData.new [(3, PlayerColor.Blue)]) :=
  (fourline_reachable_gravity [(3, PlayerColor.Blue)] (by decide)).1

theorem fourline_win_priority_over_draw_witness :
    (turn_step almostDoneBoard GameState.HumanToMove 0).2 = GameState.GameWon ∧
    (turn_step almostDoneBoard GameState.HumanToMove 0).1.cells (7 * 5 + 0) =
      some almostDoneBoard.next_player_color :=
  fourline_win_priority_over_draw almostDoneBoard GameState.HumanToMove 0 5
    (Or.inl rfl) (by rfl) (by decide) (by decide)

theorem fourline_terminal_absorbing_witness :
    app_run GameData.new GameState.GameWon [2, 5] = (GameData.new, GameState.GameWon) :=
  fourline_terminal_absorbing GameData.new GameState.GameWon (Or.inl rfl) [2, 5]

theorem fourline_make_move_full_column_witness :
    ((make_move fullColumnBoard 0).2 = Except.error () ↔
      ∀ r, r < 6 → fullColumnBoard.cells (r * 7 + 0) ≠ none) ∧
    ((make_move fullColumnBoard 0).2 = Except.error () →
      (make_move fullColumnBoard 0).1 = fullColumnBoard) :=
  fourline_make_move_full_column fullColumnBoard 0 (by decide)

theorem fourline_make_move_success_witness :
    ∃ r, (make_move GameData.new 0).2 = Except.ok r ∧ r < 6 ∧
      GameData.new.cells (r * 7 + 0) = none ∧
      (∀ q, q < r → GameData.new.cells (q * 7 + 0) ≠ none) ∧
      (make_move GameData.new 0).1.cells (7 * r + 0) = some GameData.new.next_player_color ∧
      (∀ i, i ≠ 7 * r + 0 → (make_move GameData.new 0).1.cells i = GameData.new.cells i) :=
  fourline_make_move_success GameData.new 0 (by decide) ⟨0, by decide, rfl⟩

theorem fourline_is_board_full_iff_witness :
    (GameData.new.is_board_full = true ↔
      ∀ col, col < 7 → GameData.new.cells (5 * 7 + col) ≠ none) ∧
    (gravityInv GameData.new → GameData.new.is_board_full = true →
      ∀ col, col < 7 → ∀ row, row < 6 → GameData.new.cells (row * 7 + col) ≠ none) :=
  fourline_is_board_full_iff GameData.new

theorem fourline_full_column_noop_witness :
    turn_step fullColumnBoard GameState.HumanToMove 0 =
      (fullColumnBoard, GameState.HumanToMove) :=
  fourline_full_column_noop fullColumnBoard GameState.HumanToMove 0 rfl

theorem fourline_no_win_sparse_witness :
    GameData.new.is_winning_move 3 2 = false ∧
    (singlePieceBoard (2 * 7 + 3) PlayerColor.Red).is_winning_move 3 2 = false :=
  ⟨fourline_no_win_sparse.1 3 (by decide) 2 (by decide),
   fourline_no_win_sparse.2 3 (by decide) 2 (by decide) PlayerColor.Red⟩

theorem fourline_asserts_hold_witness :
    computer_selected_column 12 < 7 ∧ (1 : Nat) < 7 ∧ (0 : Nat) < 6 :=
  ⟨fourline_asserts_hold.1 12,
   fourline_asserts_hold.2.1 (-200) 1 (by
     unfold convert_mouse_position_to_column_id
     norm_num
     rw [show Rat.floor 1 = 1 from rfl]
     norm_num),
   fourline_asserts_hold.2.2 GameData.new 0 0 rfl⟩
